import Mathlib

/-!
Verification of the predicate-dispatch engine (`reg`): a shallow embedding of
`reg/predicate.py` and `reg/dispatch.py` together with theorems about the
specificity order, multi-axis narrowing-by-intersection, fallback semantics,
duplicate-registration protection and the dispatch invocation pipeline.

Modelling conventions:
* Implementations (the values registered in an index) are an abstract type `V`
  with decidable equality.  Classification values (axis keys) are an abstract
  type `K` with decidable equality.
* Python's `None` and the `NOT_FOUND` sentinel are modelled by the dedicated
  constructors `PyObj.pyNone` and `PyObj.notFound`; a genuine implementation
  `v : V` is `PyObj.obj v`.
* A Python `set` of implementations is modelled as a duplicate-free list in
  insertion order (`KeyIndex.add` only appends an element that is not already
  present, exactly like `set.add`); `tuple(result)[0]` becomes `List.head?`.
* Python's stable `list.sort(key=len)` is modelled by the stable
  `List.insertionSort` ordered by length.
* `inspect.getmro` is runtime reflection outside the translated module; it is
  abstracted as a `TypeUniverse`: a map from a class to its linear ancestor
  list, plus the distinguished root class `object`.
-/

set_option autoImplicit false

namespace Reg

variable {K : Type} {V : Type} {A : Type} {R : Type}

/-- Result universe for lookups: Python `None`, the `NOT_FOUND` sentinel from
`reg/sentinel.py`, or an actual registered value. -/
inductive PyObj (V : Type) where
  | pyNone : PyObj V
  | notFound : PyObj V
  | obj : V → PyObj V
deriving DecidableEq, Repr

/-- Mirrors `reg.error.RegistrationError` raised by `register` on a duplicate
predicate key. -/
inductive RegistrationError where
  | duplicateKey : RegistrationError
deriving DecidableEq, Repr

/-- Mirrors `KeyIndex` (`predicate.py`): a dictionary from classification value
to the set of implementations registered under that exact value.  The dict is
an association list, a stored set is a duplicate-free list in insertion
order. -/
def KeyIndex (K V : Type) : Type := List (K × List V)

/-- Analogue of `KeyIndex.__init__`: the empty dictionary. -/
def KeyIndex.empty {K V : Type} : KeyIndex K V := []

/-- Mirrors `KeyIndex.add`: `self.d.setdefault(key, set()).add(value)`. -/
def KeyIndex.add [DecidableEq K] [DecidableEq V] :
    KeyIndex K V → K → V → KeyIndex K V
  | [], key, value => [(key, [value])]
  | (k, vs) :: rest, key, value =>
    if k = key then (k, if value ∈ vs then vs else vs ++ [value]) :: rest
    else (k, vs) :: KeyIndex.add rest key value

/-- Mirrors `KeyIndex.get`: `self.d.get(key, default)`.  `Option.none` stands
for the default (the caller supplies `None` or `NOT_FOUND` there). -/
def KeyIndex.get [DecidableEq K] : KeyIndex K V → K → Option (List V)
  | [], _ => Option.none
  | (k, vs) :: rest, key => if k = key then Option.some vs else KeyIndex.get rest key

/-- Mirrors the `Predicate` class: one classification axis.  `permutations`
is the specificity-order generator, `_fallback` the optional declared fallback
value (`None`, i.e. `PyObj.pyNone`, when not declared). -/
structure Predicate (K V : Type) where
  permutations : K → List K
  _fallback : PyObj V

/-- Loop body of `Predicate.fallback`: walk the permutations; on the first one
present in the index (`index.get(k, NOT_FOUND) is not NOT_FOUND`) return
`NOT_FOUND`, otherwise fall through to the declared fallback. -/
def predicate_fallback_go [DecidableEq K] (index : KeyIndex K V) (fb : PyObj V) :
    List K → PyObj V
  | [] => fb
  | k :: ks =>
    if (index.get k).isSome then PyObj.notFound
    else predicate_fallback_go index fb ks

/-- Mirrors `Predicate.fallback(self, index, key)`. -/
def Predicate.fallback [DecidableEq K] (p : Predicate K V) (index : KeyIndex K V)
    (key : K) : PyObj V :=
  predicate_fallback_go index p._fallback (p.permutations key)

/-- Mirrors `key_permutations`: a simple immutable key has the single
permutation `[key]`. -/
def key_permutations (key : K) : List K := [key]

/-- Abstracts `inspect.getmro` and the builtin `object`: every class maps to
its method-resolution-order ancestor list (starting with itself), and `object`
is the universal root class. -/
structure TypeUniverse (K : Type) where
  getmro : K → List K
  object : K

/-- Mirrors `class_permutations`: yield `inspect.getmro(key)` in order; after
the loop, if the last yielded class is not `object`, also yield `object`.
(`getmro` never returns an empty list; the empty case is unreachable and maps
to the empty sequence.) -/
def class_permutations [DecidableEq K] (U : TypeUniverse K) (key : K) : List K :=
  match (U.getmro key).getLast? with
  | Option.none => U.getmro key
  | Option.some last =>
    if last = U.object then U.getmro key else U.getmro key ++ [U.object]

/-- Mirrors `key_predicate`: predicate indexed on any immutable value. -/
def key_predicate [DecidableEq K] (fb : PyObj V) : Predicate K V :=
  { permutations := key_permutations, _fallback := fb }

/-- Mirrors `class_predicate`: predicate indexed on class, with the
class-hierarchy specificity order. -/
def class_predicate [DecidableEq K] (U : TypeUniverse K) (fb : PyObj V) :
    Predicate K V :=
  { permutations := class_permutations U, _fallback := fb }

/-- Mirrors `PredicateRegistry` for a single-axis predicate: the predicate,
its index, and the set of keys already registered. -/
structure PredicateRegistry (K V : Type) where
  predicate : Predicate K V
  index : KeyIndex K V
  known_keys : List K

/-- Mirrors `PredicateRegistry.__init__`: fresh index, no known keys. -/
def PredicateRegistry.empty (p : Predicate K V) : PredicateRegistry K V :=
  { predicate := p, index := KeyIndex.empty, known_keys := [] }

/-- Mirrors `PredicateRegistry.register`: raise `RegistrationError` on a known
key, otherwise add to the index and record the key. -/
def PredicateRegistry.register [DecidableEq K] [DecidableEq V]
    (r : PredicateRegistry K V) (key : K) (value : V) :
    Except RegistrationError (PredicateRegistry K V) :=
  if key ∈ r.known_keys then Except.error RegistrationError.duplicateKey
  else Except.ok { r with index := r.index.add key value,
                          known_keys := r.known_keys ++ [key] }

/-- Mirrors `PredicateRegistry.all`: for each permutation present in the index
yield `tuple(result)[0]`, the first element of the stored set.  (Stored sets
are never empty, so taking `List.head?` loses nothing.) -/
def PredicateRegistry.all [DecidableEq K] (r : PredicateRegistry K V) (key : K) :
    List V :=
  (r.predicate.permutations key).filterMap
    (fun p => (r.index.get p).bind List.head?)

/-- Mirrors `PredicateRegistry.fallback`. -/
def PredicateRegistry.fallback [DecidableEq K] (r : PredicateRegistry K V)
    (key : K) : PyObj V :=
  r.predicate.fallback r.index key

/-- Mirrors `PredicateRegistry.component`: `next(self.all(key), NOT_FOUND)`,
falling back to `self.fallback(key)` when the walk yields nothing. -/
def PredicateRegistry.component [DecidableEq K] (r : PredicateRegistry K V)
    (key : K) : PyObj V :=
  match (r.all key).head? with
  | Option.some v => PyObj.obj v
  | Option.none => r.fallback key

/-- Mirrors Python's `set.intersection` on the list model of sets: keep (in
order) the elements of the first set that also belong to the second. -/
def pyinter [DecidableEq V] (a b : List V) : List V :=
  a.filter (fun x => x ∈ b)

/-- Matches-gathering loop of `MultiIndex.get`: pair child indexes with the
per-axis keys (`zip` stops at the shorter list); if any axis yields no set or
an empty set (`if not match`), short-circuit to the default (`Option.none`). -/
def collect_matches [DecidableEq K] [DecidableEq V] :
    List (KeyIndex K V) → List K → Option (List (List V))
  | idx :: idxs, k :: ks =>
    match idx.get k with
    | Option.none => Option.none
    | Option.some m =>
      if m = [] then Option.none
      else
        match collect_matches idxs ks with
        | Option.none => Option.none
        | Option.some rest => Option.some (m :: rest)
  | _, _ => Option.some []

/-- Intersection loop of `MultiIndex.get`: starting from the first match,
intersect with each further match, bailing out to the default as soon as the
running result is empty. -/
def intersect_go [DecidableEq V] (result : List V) :
    List (List V) → Option (List V)
  | [] => if result = [] then Option.none else Option.some result
  | m :: rest =>
    if result = [] then Option.none
    else intersect_go (pyinter result m) rest

/-- Mirrors `MultiIndex.get(self, keys, default)`: gather each axis's match,
sort matches by size (stable, smallest first) and intersect them left to
right; `Option.none` is the supplied default.  (With zero axes Python returns
the initial `None`, which this model also renders as `Option.none`.) -/
def MultiIndex.get [DecidableEq K] [DecidableEq V]
    (indexes : List (KeyIndex K V)) (keys : List K) : Option (List V) :=
  match collect_matches indexes keys with
  | Option.none => Option.none
  | Option.some mlist =>
    match mlist.insertionSort (fun a b => a.length ≤ b.length) with
    | [] => Option.none
    | m :: ms => intersect_go m ms

/-- Mirrors `MultiIndex.add(self, keys, value)`: add the value to each axis's
child index under that axis's key (`zip` stops at the shorter list). -/
def MultiIndex.add [DecidableEq K] [DecidableEq V] :
    List (KeyIndex K V) → List K → V → List (KeyIndex K V)
  | [], _, _ => []
  | idxs, [], _ => idxs
  | idx :: idxs, k :: ks, value => idx.add k value :: MultiIndex.add idxs ks value

/-- Mirrors `MultiIndex.__init__` followed by a sequence of `add` calls: start
from one empty child index per axis and register each (full key, value) pair
in order. -/
def buildMultiIndex [DecidableEq K] [DecidableEq V] (n : Nat)
    (regs : List (List K × V)) : List (KeyIndex K V) :=
  regs.foldl (fun idxs r => MultiIndex.add idxs r.1 r.2)
    (List.replicate n KeyIndex.empty)

/-- Mirrors `multipredicate_permutations(predicates, keys)`: nested iteration,
first axis outermost (varying slowest).  The Python index errors raised on a
shape mismatch (`keys` empty, or more keys than predicates) map to the empty
enumeration. -/
def multipredicate_permutations (predicates : List (Predicate K V))
    (keys : List K) : List (List K) :=
  match predicates, keys with
  | p :: ps, k :: ks =>
    match ks with
    | [] => (p.permutations k).map (fun permutation => [permutation])
    | _ :: _ =>
      (p.permutations k).flatMap
        (fun permutation =>
          (multipredicate_permutations ps ks).map
            (fun rest_permutation => permutation :: rest_permutation))
  | _, _ => []

/-- Mirrors `MultiPredicate.fallback`: walk `zip(indexes, key, predicates)`;
return the first per-axis fallback result that is not `NOT_FOUND`, and
`NOT_FOUND` once the zip is exhausted. -/
def multi_fallback [DecidableEq K] [DecidableEq V] :
    List (KeyIndex K V) → List K → List (Predicate K V) → PyObj V
  | idx :: idxs, k :: ks, p :: ps =>
    if p.fallback idx k ≠ PyObj.notFound then p.fallback idx k
    else multi_fallback idxs ks ps
  | _, _, _ => PyObj.notFound

/-- Mirrors `PredicateRegistry` whose predicate is a `MultiPredicate`: the
index is a `MultiIndex` (one child index per axis) and keys are tuples. -/
structure MultiPredicateRegistry (K V : Type) where
  predicates : List (Predicate K V)
  indexes : List (KeyIndex K V)
  known_keys : List (List K)

/-- Mirrors building a `PredicateRegistry` over `MultiPredicate(predicates)`:
`MultiPredicate.create_index` makes one child index per axis. -/
def MultiPredicateRegistry.empty (ps : List (Predicate K V)) :
    MultiPredicateRegistry K V :=
  { predicates := ps,
    indexes := List.replicate ps.length KeyIndex.empty,
    known_keys := [] }

/-- Mirrors `PredicateRegistry.register` in the multi-axis instantiation. -/
def MultiPredicateRegistry.register [DecidableEq K] [DecidableEq V]
    (r : MultiPredicateRegistry K V) (keys : List K) (value : V) :
    Except RegistrationError (MultiPredicateRegistry K V) :=
  if keys ∈ r.known_keys then Except.error RegistrationError.duplicateKey
  else Except.ok { r with indexes := MultiIndex.add r.indexes keys value,
                          known_keys := r.known_keys ++ [keys] }

/-- Mirrors `PredicateRegistry.all` in the multi-axis instantiation: walk the
combined specificity order; `self.index.get(p, NOT_FOUND)` is the
narrowing-by-intersection lookup. -/
def MultiPredicateRegistry.all [DecidableEq K] [DecidableEq V]
    (r : MultiPredicateRegistry K V) (keys : List K) : List V :=
  (multipredicate_permutations r.predicates keys).filterMap
    (fun p => (MultiIndex.get r.indexes p).bind List.head?)

/-- Mirrors `PredicateRegistry.component` in the multi-axis instantiation. -/
def MultiPredicateRegistry.component [DecidableEq K] [DecidableEq V]
    (r : MultiPredicateRegistry K V) (keys : List K) : PyObj V :=
  match (r.all keys).head? with
  | Option.some v => PyObj.obj v
  | Option.none => multi_fallback r.indexes keys r.predicates

/-- Mirrors `SingleValueRegistry`: the zero-axis registry, a single slot
initialised to `None`. -/
structure SingleValueRegistry (V : Type) where
  value : Option V

/-- Mirrors `SingleValueRegistry.register`: `if self.value is not None`
raise, else store the value.  The key is ignored. -/
def SingleValueRegistry.register (r : SingleValueRegistry V) (key : K)
    (value : V) : Except RegistrationError (SingleValueRegistry V) :=
  match r.value with
  | Option.some _ => Except.error RegistrationError.duplicateKey
  | Option.none => Except.ok { value := Option.some value }

/-- Mirrors `SingleValueRegistry.component`: return the slot (`None` when
never set), whatever the key. -/
def SingleValueRegistry.component (r : SingleValueRegistry V) (key : K) :
    Option V :=
  r.value

/-- Modelled from the spec: Python truthiness of lookup results, as used by
the `or` chain in the generated `__call__` body
(`_component_lookup(_key) or _fallback_lookup(_key) or _fallback`).
`reg/sentinel.py`, which defines the `NOT_FOUND` object and thereby its
boolean behaviour, is not part of the sources; per the spec a resolution miss
is "not an error" and "the Dispatch Pipeline always has a default
implementation to fall back to, so an end caller never observes a bare miss",
so the sentinel — like `None` — is treated as absent by the chain, while a
registered implementation (a function object) is truthy. -/
def truthy : PyObj V → Bool
  | PyObj.pyNone => false
  | PyObj.notFound => false
  | PyObj.obj _ => true

/-- Python `a or b` on lookup results: `a` when truthy, else `b`. -/
def pyOr (a b : PyObj V) : PyObj V :=
  if truthy a then a else b

/-- Mirrors a `Dispatch` object (`dispatch.py`) over a single-axis registry:
the wrapped default implementation, the key extraction built from the
argument extractor and `registry.key` (abstracted as a pure function from the
call arguments to the predicate key, per the spec's external-interface
contract), and the predicate registry. -/
structure Dispatch (K V A : Type) where
  wrapped_func : V
  get_key : A → K
  registry : PredicateRegistry K V

/-- Mirrors the generated `__call__` body: extract the key, evaluate the
`or` chain, and invoke the chosen object on the original arguments.  `app`
gives the meaning of calling an implementation; calling a non-callable
(`None` or the sentinel) is Python's `TypeError`, rendered `Option.none`. -/
def Dispatch.call [DecidableEq K] (app : V → A → R) (d : Dispatch K V A)
    (args : A) : Option R :=
  let key := d.get_key args
  match pyOr (d.registry.component key)
      (pyOr (d.registry.fallback key) (PyObj.obj d.wrapped_func)) with
  | PyObj.obj v => Option.some (app v args)
  | _ => Option.none

/-- Predicate keys as passed to `Dispatch.register_value`: a bare value, a
Python list, or a tuple — whose elements may themselves be lists or tuples
(in particular, a key can itself be a 1-tuple). -/
inductive RawKey (K : Type) where
  | atom : K → RawKey K
  | list : List (RawKey K) → RawKey K
  | tup : List (RawKey K) → RawKey K

mutual

def RawKey.decEq {K : Type} [DecidableEq K] :
    (a b : RawKey K) → Decidable (a = b)
  | RawKey.atom x, RawKey.atom y =>
    if h : x = y then Decidable.isTrue (by rw [h])
    else Decidable.isFalse (fun he => h (RawKey.atom.inj he))
  | RawKey.atom _, RawKey.list _ =>
    Decidable.isFalse (fun he => RawKey.noConfusion he)
  | RawKey.atom _, RawKey.tup _ =>
    Decidable.isFalse (fun he => RawKey.noConfusion he)
  | RawKey.list _, RawKey.atom _ =>
    Decidable.isFalse (fun he => RawKey.noConfusion he)
  | RawKey.list as, RawKey.list bs =>
    match RawKey.decEqList as bs with
    | Decidable.isTrue h => Decidable.isTrue (by rw [h])
    | Decidable.isFalse h => Decidable.isFalse (fun he => h (RawKey.list.inj he))
  | RawKey.list _, RawKey.tup _ =>
    Decidable.isFalse (fun he => RawKey.noConfusion he)
  | RawKey.tup _, RawKey.atom _ =>
    Decidable.isFalse (fun he => RawKey.noConfusion he)
  | RawKey.tup _, RawKey.list _ =>
    Decidable.isFalse (fun he => RawKey.noConfusion he)
  | RawKey.tup as, RawKey.tup bs =>
    match RawKey.decEqList as bs with
    | Decidable.isTrue h => Decidable.isTrue (by rw [h])
    | Decidable.isFalse h => Decidable.isFalse (fun he => h (RawKey.tup.inj he))

def RawKey.decEqList {K : Type} [DecidableEq K] :
    (as bs : List (RawKey K)) → Decidable (as = bs)
  | [], [] => Decidable.isTrue rfl
  | [], _ :: _ => Decidable.isFalse (fun he => List.noConfusion he)
  | _ :: _, [] => Decidable.isFalse (fun he => List.noConfusion he)
  | a :: as, b :: bs =>
    match RawKey.decEq a b, RawKey.decEqList as bs with
    | Decidable.isTrue h1, Decidable.isTrue h2 =>
      Decidable.isTrue (by rw [h1, h2])
    | Decidable.isFalse h1, _ =>
      Decidable.isFalse (fun he => h1 (List.cons.inj he).1)
    | _, Decidable.isFalse h2 =>
      Decidable.isFalse (fun he => h2 (List.cons.inj he).2)

end

instance {K : Type} [DecidableEq K] : DecidableEq (RawKey K) := RawKey.decEq

/-- Key normalization performed by `Dispatch.register_value`: a list becomes
a tuple, then a length-1 tuple is replaced by its single element
(`predicate_key = predicate_key[0]`) — one collapse, not applied
recursively. -/
def register_value_normalize (pk : RawKey K) : RawKey K :=
  match (match pk with | RawKey.list ks => RawKey.tup ks | other => other) with
  | RawKey.tup [k] => k
  | other => other

/-- Mirrors `Dispatch.register_value`: normalize the predicate key, then
register through the registry. -/
def Dispatch.register_value [DecidableEq K] [DecidableEq V]
    (d : Dispatch (RawKey K) V A) (predicate_key : RawKey K) (value : V) :
    Except RegistrationError (Dispatch (RawKey K) V A) :=
  (d.registry.register (register_value_normalize predicate_key) value).map
    (fun r => { d with registry := r })

/-- Cartesian product of a list of candidate sequences, first sequence
varying slowest — written from the spec's words for §4.2's combined
specificity order, to be compared against `multipredicate_permutations`. -/
def spec_cartesian_product {α : Type} : List (List α) → List (List α)
  | [] => [[]]
  | l :: ls => l.flatMap (fun x => (spec_cartesian_product ls).map (fun t => x :: t))

/-- Three-way zip, mirroring Python's `zip(multi_index.indexes, key,
self.predicates)` (stops at the shortest list). -/
def zip3 {α β γ : Type} : List α → List β → List γ → List (α × β × γ)
  | a :: as, b :: bs, c :: cs => (a, b, c) :: zip3 as bs cs
  | _, _, _ => []

/-- Membership of a value in the set stored under a key of a `KeyIndex`. -/
def KeyIndex.hasValue [DecidableEq K] (idx : KeyIndex K V) (k : K) (v : V) :
    Prop :=
  ∃ l, idx.get k = Option.some l ∧ v ∈ l

/-- Well-formedness of a `KeyIndex`: every stored set is non-empty and free of
duplicates (true of every reachable index, since `add` is the only mutator). -/
def KeyIndex.WF [DecidableEq K] (idx : KeyIndex K V) : Prop :=
  ∀ k l, idx.get k = Option.some l → l ≠ [] ∧ l.Nodup

/-- Axis `i`'s stored implementation set for the `i`-th component of a lookup
key: what `self.indexes[i].get(keys[i])` returns inside `MultiIndex.get`. -/
def axis_stored_set [DecidableEq K] (indexes : List (KeyIndex K V))
    (keys : List K) (i : Nat) : Option (List V) :=
  (indexes[i]?).bind (fun idx => (keys[i]?).bind (fun k => idx.get k))

/-- Small concrete class hierarchy used by witnesses: class `2` derives from
class `1`, which derives from `object` (class `0`); class `3` is an old-style
class whose mro does not reach `object`. -/
def witnessUniverse : TypeUniverse Nat :=
  { getmro := fun k => match k with
      | 2 => [2, 1, 0]
      | 1 => [1, 0]
      | _ => [k],
    object := 0 }

/-! Helper lemmas shared by several claims. -/

theorem list_flatMap_single {α β : Type} (l : List α) (g : α → β) :
    l.flatMap (fun x => [g x]) = l.map g := by
  induction l with
  | nil => rfl
  | cons a l ih => simp [ih]

theorem predicate_fallback_go_eq [DecidableEq K] (index : KeyIndex K V)
    (fb : PyObj V) (l : List K) :
    predicate_fallback_go index fb l =
      if l.all (fun k => (index.get k).isNone) then fb else PyObj.notFound := by
  induction l with
  | nil => rfl
  | cons k ks ih =>
    simp only [predicate_fallback_go, List.all_cons, ih]
    have hnn : (index.get k).isNone = !(index.get k).isSome := by
      cases index.get k <;> rfl
    simp only [hnn]
    by_cases hk : (index.get k).isSome = true
    · simp [hk]
    · rw [Bool.not_eq_true] at hk
      simp only [hk, Bool.not_false, Bool.true_and, Bool.false_eq_true,
        if_false]

theorem class_permutations_eq [DecidableEq K] (U : TypeUniverse K) (T : K)
    (hne : U.getmro T ≠ []) :
    class_permutations U T =
      if (U.getmro T).getLast? = Option.some U.object then U.getmro T
      else U.getmro T ++ [U.object] := by
  unfold class_permutations
  cases hl : (U.getmro T).getLast? with
  | none =>
    exfalso
    have h2 := (List.getLast?_isSome (l := U.getmro T)).mpr hne
    rw [hl] at h2
    simp at h2
  | some last =>
    by_cases ho : last = U.object <;> simp [ho]

theorem class_permutations_cons [DecidableEq K] (U : TypeUniverse K) (T : K)
    (rest : List K) (h : U.getmro T = T :: rest) :
    ∃ l, class_permutations U T = T :: l := by
  rw [class_permutations_eq U T (by simp [h])]
  by_cases ho : (U.getmro T).getLast? = Option.some U.object
  · exact ⟨rest, by rw [if_pos ho]; exact h⟩
  · exact ⟨rest ++ [U.object], by rw [if_neg ho, h]; rfl⟩

theorem keyindex_get_add_fresh [DecidableEq K] [DecidableEq V]
    (idx : List (K × List V)) (key : K) (v : V)
    (h : KeyIndex.get idx key = Option.none) :
    KeyIndex.get (KeyIndex.add idx key v) key = Option.some [v] := by
  induction idx with
  | nil => simp [KeyIndex.add, KeyIndex.get]
  | cons hd tl ih =>
    obtain ⟨k, vs⟩ := hd
    by_cases hk : k = key
    · exfalso
      rw [show KeyIndex.get ((k, vs) :: tl) key = Option.some vs from by
        simp [KeyIndex.get, hk]] at h
      exact Option.noConfusion h
    · simp only [KeyIndex.add, KeyIndex.get, if_neg hk] at h ⊢
      exact ih h

theorem component_of_first_permutation [DecidableEq K]
    (r : PredicateRegistry K V) (key : K) (l : List K) (v : V) (vs : List V)
    (hperm : r.predicate.permutations key = key :: l)
    (hget : r.index.get key = Option.some (v :: vs)) :
    r.component key = PyObj.obj v := by
  unfold PredicateRegistry.component PredicateRegistry.all
  rw [hperm, List.filterMap_cons, hget]
  simp

/-- C4: for every class `T` with a well-formed mro (starting at `T` itself),
the hierarchy-axis specificity order yields `T` first, then the remaining mro
ancestors in order, and ends with `object`, appended exactly when the mro walk
does not already end at `object`; an exact-match axis orders any value `v` as
the single-element sequence `[v]`. -/
theorem hierarchy_axis_specificity_order [DecidableEq K] (U : TypeUniverse K)
    (T : K) (rest : List K) (h : U.getmro T = T :: rest) :
    class_permutations U T =
      U.getmro T ++
        (if (U.getmro T).getLast? = Option.some U.object then []
         else [U.object]) ∧
    (class_permutations U T).head? = Option.some T ∧
    (class_permutations U T).getLast? = Option.some U.object ∧
    ∀ v : K, key_permutations v = [v] := by
  rw [class_permutations_eq U T (by simp [h])]
  by_cases ho : (U.getmro T).getLast? = Option.some U.object
  · refine ⟨by simp [ho], ?_, ?_, fun v => rfl⟩
    · rw [if_pos ho, h]; rfl
    · rw [if_pos ho]; exact ho
  · refine ⟨by simp [ho], ?_, ?_, fun v => rfl⟩
    · rw [if_neg ho, h]; rfl
    · rw [if_neg ho]; exact List.getLast?_concat _

/-- Witness for C4 at the concrete hierarchy `witnessUniverse`, class `2`
(mro `[2, 1, 0]` ending at `object = 0`). -/
theorem hierarchy_axis_specificity_order_witness :
    witnessUniverse.getmro 2 = 2 :: [1, 0] ∧
    (class_permutations witnessUniverse 2 =
      witnessUniverse.getmro 2 ++
        (if (witnessUniverse.getmro 2).getLast? =
            Option.some witnessUniverse.object then []
         else [witnessUniverse.object]) ∧
    (class_permutations witnessUniverse 2).head? = Option.some 2 ∧
    (class_permutations witnessUniverse 2).getLast? =
      Option.some witnessUniverse.object ∧
    ∀ v : Nat, key_permutations v = [v]) :=
  ⟨rfl, hierarchy_axis_specificity_order witnessUniverse 2 [1, 0] rfl⟩

/-- C5: a single axis's `fallback(index, key)` returns the declared fallback
value exactly when no permutation in the specificity order of `key` is present
in the index; as soon as one permutation is present it returns the `NOT_FOUND`
sentinel, never the fallback value (the declared fallback value being an
actual value or `None`, not the sentinel itself). -/
theorem axis_fallback_applicability [DecidableEq K] (p : Predicate K V)
    (index : KeyIndex K V) (key : K) (h : p._fallback ≠ PyObj.notFound) :
    (p.fallback index key = p._fallback ↔
      ∀ k ∈ p.permutations key, index.get k = Option.none) ∧
    ((∃ k ∈ p.permutations key, (index.get k).isSome) →
      p.fallback index key = PyObj.notFound ∧
      p.fallback index key ≠ p._fallback) := by
  unfold Predicate.fallback
  rw [predicate_fallback_go_eq]
  by_cases hall : (p.permutations key).all (fun k => (index.get k).isNone) = true
  · rw [if_pos hall]
    refine ⟨⟨fun _ k hk => ?_, fun _ => rfl⟩, fun hex => absurd hex ?_⟩
    · have := List.all_eq_true.mp hall k hk
      simpa [Option.isNone_iff_eq_none] using this
    · rintro ⟨k, hk, hsome⟩
      have := List.all_eq_true.mp hall k hk
      rw [Option.isNone_iff_eq_none] at this
      rw [this] at hsome
      exact Bool.noConfusion hsome
  · rw [if_neg hall]
    refine ⟨⟨fun heq => absurd heq.symm h, fun hnone => absurd ?_ hall⟩,
      fun _ => ⟨rfl, fun heq => h heq.symm⟩⟩
    exact List.all_eq_true.mpr
      (fun k hk => by rw [Option.isNone_iff_eq_none]; exact hnone k hk)

/-- Witness for C5: an exact-match axis with declared fallback `7`, an index
holding key `0`, probed at present key `0` and absent key `1`. -/
theorem axis_fallback_applicability_witness :
    (key_predicate (PyObj.obj 7) : Predicate Nat Nat)._fallback ≠
      PyObj.notFound ∧
    (((key_predicate (PyObj.obj 7) : Predicate Nat Nat)).fallback
        [(0, [5])] 0 = (key_predicate (PyObj.obj 7)
          : Predicate Nat Nat)._fallback ↔
      ∀ k ∈ (key_predicate (PyObj.obj 7)
          : Predicate Nat Nat).permutations 0,
        KeyIndex.get [(0, [5])] k = Option.none) ∧
    ((∃ k ∈ (key_predicate (PyObj.obj 7)
          : Predicate Nat Nat).permutations 0,
        (KeyIndex.get [(0, [5])] k).isSome) →
      (key_predicate (PyObj.obj 7) : Predicate Nat Nat).fallback
          [(0, [5])] 0 = PyObj.notFound ∧
      (key_predicate (PyObj.obj 7) : Predicate Nat Nat).fallback
          [(0, [5])] 0 ≠ (key_predicate (PyObj.obj 7)
            : Predicate Nat Nat)._fallback) :=
  ⟨by decide,
   axis_fallback_applicability (key_predicate (PyObj.obj 7)) [(0, [5])] 0
     (by decide)⟩

/-- C3: for axis predicates `p₁ … pₙ` and a key tuple `k₁ … kₙ` (`n ≥ 1`),
`multipredicate_permutations` enumerates exactly the Cartesian product of the
per-axis specificity orders, as tuples, first axis varying slowest. -/
theorem combined_specificity_order_cartesian (predicates : List (Predicate K V))
    (keys : List K) (hlen : predicates.length = keys.length) (hne : keys ≠ []) :
    multipredicate_permutations predicates keys =
      spec_cartesian_product
        (List.zipWith (fun p k => p.permutations k) predicates keys) := by
  induction predicates generalizing keys with
  | nil =>
    cases keys with
    | nil => exact absurd rfl hne
    | cons k ks => simp at hlen
  | cons p ps ih =>
    cases keys with
    | nil => exact absurd rfl hne
    | cons k ks =>
      cases ks with
      | nil =>
        cases ps with
        | nil =>
          simp [multipredicate_permutations, spec_cartesian_product,
            list_flatMap_single]
        | cons p2 ps2 => simp at hlen
      | cons k2 ks2 =>
        have hlen2 : ps.length = (k2 :: ks2).length := by simpa using hlen
        simp only [multipredicate_permutations]
        rw [ih (k2 :: ks2) hlen2 (by simp)]
        simp [spec_cartesian_product]

/-- Witness for C3: two axes (a hierarchy axis over `witnessUniverse` and an
exact axis), key tuple `(2, 7)`. -/
theorem combined_specificity_order_cartesian_witness :
    ([class_predicate witnessUniverse PyObj.pyNone,
        key_predicate PyObj.pyNone] : List (Predicate Nat Nat)).length =
      ([2, 7] : List Nat).length ∧
    multipredicate_permutations
        ([class_predicate witnessUniverse PyObj.pyNone,
          key_predicate PyObj.pyNone] : List (Predicate Nat Nat)) [2, 7] =
      spec_cartesian_product
        (List.zipWith (fun p k => p.permutations k)
          ([class_predicate witnessUniverse PyObj.pyNone,
            key_predicate PyObj.pyNone] : List (Predicate Nat Nat)) [2, 7]) :=
  ⟨rfl,
   combined_specificity_order_cartesian
     [class_predicate witnessUniverse PyObj.pyNone,
      key_predicate PyObj.pyNone] [2, 7] rfl (by simp)⟩

/-- C1: on a single type-hierarchy axis, with `fA` registered under class `A`
and `fB` registered under class `B` (a distinct class whose mro starts at `B`,
e.g. a subclass of `A`), registering in either order and then resolving
`component` with key `B` returns `fB`, not `fA`. -/
theorem specificity_correctness_of_resolution [DecidableEq K] [DecidableEq V]
    (U : TypeUniverse K) (fb : PyObj V) (A B : K) (fA fB : V) (mroB : List K)
    (hAB : A ≠ B) (hmro : U.getmro B = B :: mroB) :
    (((PredicateRegistry.empty (class_predicate U fb)).register A fA).bind
        (fun r => r.register B fB)).map (fun r => r.component B) =
      Except.ok (PyObj.obj fB) ∧
    (((PredicateRegistry.empty (class_predicate U fb)).register B fB).bind
        (fun r => r.register A fA)).map (fun r => r.component B) =
      Except.ok (PyObj.obj fB) := by
  obtain ⟨lB, hpermB⟩ := class_permutations_cons U B mroB hmro
  constructor
  · have step1 : (PredicateRegistry.empty (class_predicate U fb)).register A fA
        = Except.ok ⟨class_predicate U fb, [(A, [fA])], [A]⟩ := by
      simp [PredicateRegistry.register, PredicateRegistry.empty,
        KeyIndex.empty, KeyIndex.add]
    have step2 : (⟨class_predicate U fb, [(A, [fA])], [A]⟩
          : PredicateRegistry K V).register B fB
        = Except.ok ⟨class_predicate U fb, [(A, [fA]), (B, [fB])], [A, B]⟩ := by
      simp [PredicateRegistry.register, KeyIndex.add, hAB, Ne.symm hAB]
    have hcomp : (⟨class_predicate U fb, [(A, [fA]), (B, [fB])], [A, B]⟩
          : PredicateRegistry K V).component B = PyObj.obj fB :=
      component_of_first_permutation _ B lB fB [] hpermB
        (by simp [KeyIndex.get, hAB])
    rw [step1]
    show ((⟨class_predicate U fb, [(A, [fA])], [A]⟩
        : PredicateRegistry K V).register B fB).map (fun r => r.component B)
      = _
    rw [step2]
    show Except.ok ((⟨class_predicate U fb, [(A, [fA]), (B, [fB])], [A, B]⟩
        : PredicateRegistry K V).component B) = _
    rw [hcomp]
  · have step1 : (PredicateRegistry.empty (class_predicate U fb)).register B fB
        = Except.ok ⟨class_predicate U fb, [(B, [fB])], [B]⟩ := by
      simp [PredicateRegistry.register, PredicateRegistry.empty,
        KeyIndex.empty, KeyIndex.add]
    have step2 : (⟨class_predicate U fb, [(B, [fB])], [B]⟩
          : PredicateRegistry K V).register A fA
        = Except.ok ⟨class_predicate U fb, [(B, [fB]), (A, [fA])], [B, A]⟩ := by
      simp [PredicateRegistry.register, KeyIndex.add, hAB, Ne.symm hAB]
    have hcomp : (⟨class_predicate U fb, [(B, [fB]), (A, [fA])], [B, A]⟩
          : PredicateRegistry K V).component B = PyObj.obj fB :=
      component_of_first_permutation _ B lB fB [] hpermB
        (by simp [KeyIndex.get])
    rw [step1]
    show ((⟨class_predicate U fb, [(B, [fB])], [B]⟩
        : PredicateRegistry K V).register A fA).map (fun r => r.component B)
      = _
    rw [step2]
    show Except.ok ((⟨class_predicate U fb, [(B, [fB]), (A, [fA])], [B, A]⟩
        : PredicateRegistry K V).component B) = _
    rw [hcomp]

/-- Witness for C1 in `witnessUniverse`: `A = 1` (ancestor), `B = 2`
(subclass, mro `[2, 1, 0]`), implementations `10` and `20`. -/
theorem specificity_correctness_of_resolution_witness :
    (1 : Nat) ≠ 2 ∧ witnessUniverse.getmro 2 = 2 :: [1, 0] ∧
    (((PredicateRegistry.empty (class_predicate witnessUniverse (PyObj.pyNone : PyObj Nat))).register 1 10).bind
        (fun r => r.register 2 20)).map (fun r => r.component 2) =
      Except.ok (PyObj.obj 20) ∧
    ((((PredicateRegistry.empty (class_predicate witnessUniverse (PyObj.pyNone : PyObj Nat))).register 2 20).bind
        (fun r => r.register 1 10)).map (fun r => r.component 2) =
      Except.ok (PyObj.obj 20)) :=
  ⟨by decide, rfl,
   specificity_correctness_of_resolution witnessUniverse PyObj.pyNone
     1 2 10 20 [1, 0] (by decide) rfl⟩

/-- C7: from any registry state where `key` is unregistered, a first
`register(key, v1)` succeeds, a second `register(key, v2)` raises the
duplicate-registration error while the state (in particular the first
registration) is untouched, and resolving `key` still yields `v1` (given the
axis contract that the specificity order of `key` starts at `key`). -/
theorem no_silent_overwrite [DecidableEq K] [DecidableEq V]
    (r : PredicateRegistry K V) (key : K) (v1 v2 : V) (rest : List K)
    (hknown : key ∉ r.known_keys) (hidx : r.index.get key = Option.none)
    (hperm : r.predicate.permutations key = key :: rest) :
    ∃ r1, r.register key v1 = Except.ok r1 ∧
      r1.register key v2 = Except.error RegistrationError.duplicateKey ∧
      r1.component key = PyObj.obj v1 := by
  refine ⟨PredicateRegistry.mk r.predicate (r.index.add key v1)
    (r.known_keys ++ [key]), ?_, ?_, ?_⟩
  · simp [PredicateRegistry.register, hknown]
  · simp [PredicateRegistry.register]
  · exact component_of_first_permutation _ key rest v1 [] hperm
      (keyindex_get_add_fresh r.index key v1 hidx)

/-- Witness for C7: an empty exact-match registry, key `0`, values `1`
then `2`. -/
theorem no_silent_overwrite_witness :
    (0 : Nat) ∉ (PredicateRegistry.empty (key_predicate PyObj.pyNone)
      : PredicateRegistry Nat Nat).known_keys ∧
    (PredicateRegistry.empty (key_predicate PyObj.pyNone)
      : PredicateRegistry Nat Nat).index.get 0 = Option.none ∧
    (PredicateRegistry.empty (key_predicate PyObj.pyNone)
      : PredicateRegistry Nat Nat).predicate.permutations 0 = 0 :: [] ∧
    ∃ r1, (PredicateRegistry.empty (key_predicate PyObj.pyNone)
        : PredicateRegistry Nat Nat).register 0 1 = Except.ok r1 ∧
      r1.register 0 2 = Except.error RegistrationError.duplicateKey ∧
      r1.component 0 = PyObj.obj 1 :=
  ⟨by simp [PredicateRegistry.empty], rfl, rfl,
   no_silent_overwrite _ 0 1 2 [] (by simp [PredicateRegistry.empty]) rfl rfl⟩

/-- C8: a zero-axis registry is a single slot: before any registration,
`component` returns `None` for every key; the first `register` succeeds and
stores the value; afterwards `component` returns that value for every key,
and every further `register` attempt (any key, any value, from any state with
the slot filled) raises the duplicate-registration error. -/
theorem zero_axis_single_slot {K : Type} (k k2 q q' : K) (v v2 : V)
    (r : SingleValueRegistry V) (hset : r.value ≠ Option.none) :
    (SingleValueRegistry.mk Option.none : SingleValueRegistry V).component q'
      = Option.none ∧
    (SingleValueRegistry.mk Option.none : SingleValueRegistry V).register k v
      = Except.ok (SingleValueRegistry.mk (Option.some v)) ∧
    (SingleValueRegistry.mk (Option.some v)).component q = Option.some v ∧
    r.register k2 v2 = Except.error RegistrationError.duplicateKey := by
  refine ⟨rfl, rfl, rfl, ?_⟩
  cases hv : r.value with
  | none => exact absurd hv hset
  | some v0 => simp [SingleValueRegistry.register, hv]

/-- Witness for C8 with `K = V = Nat`, a filled slot `5`, and fresh
registration attempts. -/
theorem zero_axis_single_slot_witness :
    (SingleValueRegistry.mk (Option.some 5)
      : SingleValueRegistry Nat).value ≠ Option.none ∧
    ((SingleValueRegistry.mk Option.none
        : SingleValueRegistry Nat).component 9 = Option.none ∧
    (SingleValueRegistry.mk Option.none
        : SingleValueRegistry Nat).register 0 1
      = Except.ok (SingleValueRegistry.mk (Option.some 1)) ∧
    (SingleValueRegistry.mk (Option.some (1 : Nat))).component (8 : Nat)
      = Option.some 1 ∧
    (SingleValueRegistry.mk (Option.some (5 : Nat))).register (2 : Nat) 3
      = Except.error RegistrationError.duplicateKey) :=
  ⟨by decide,
   zero_axis_single_slot 0 2 8 9 1 3 (SingleValueRegistry.mk (Option.some 5))
     (by decide)⟩

/-- C9: each call of a dispatch function derives the predicate key from the
actual call arguments and resolves it; a resolved implementation is invoked
with the original arguments, and otherwise (resolution yielding `None` or the
sentinel) the dispatch definition's own wrapped default implementation is
invoked with the original arguments — the call always produces a result and
never degenerates to invoking a non-callable (a bare miss). -/
theorem dispatch_pipeline_invocation [DecidableEq K] (app : V → A → R)
    (d : Dispatch K V A) (args : A) :
    d.call app args =
      Option.some
        (match d.registry.component (d.get_key args) with
          | PyObj.obj v => app v args
          | _ => app d.wrapped_func args) := by
  simp only [Dispatch.call, PredicateRegistry.component]
  cases hh : (d.registry.all (d.get_key args)).head? with
  | some v => rfl
  | none =>
    cases hf : d.registry.fallback (d.get_key args) <;>
      simp [pyOr, truthy]

/-- C10 counterexample: for `x` itself a 1-tuple — here `x = (5,)` — the
claim fails in the source: registering under `(x,)` collapses `((5,),)` once
to `(5,)`, while the later bare `x` collapses again to `5`, so the two
registrations address different predicate keys and the second registration
succeeds instead of raising the duplicate-registration error. -/
theorem register_value_key_normalization_counterexample :
    register_value_normalize
        (RawKey.tup [RawKey.tup [RawKey.atom (5 : Nat)]])
      = RawKey.tup [RawKey.atom 5] ∧
    register_value_normalize (RawKey.tup [RawKey.atom (5 : Nat)])
      = RawKey.atom 5 ∧
    (RawKey.tup [RawKey.atom (5 : Nat)] : RawKey Nat) ≠ RawKey.atom 5 ∧
    (Dispatch.register_value
        (Dispatch.mk 0 (fun _ : Nat => RawKey.atom 0)
          (PredicateRegistry.empty
            (key_predicate PyObj.pyNone : Predicate (RawKey Nat) Nat)))
        (RawKey.tup [RawKey.tup [RawKey.atom 5]]) 1).bind
      (fun d1 => Dispatch.register_value d1 (RawKey.tup [RawKey.atom 5]) 2)
      ≠ Except.error RegistrationError.duplicateKey := by
  refine ⟨rfl, rfl, fun h => RawKey.noConfusion h, ?_⟩
  intro h
  have hok : (Dispatch.register_value
      (Dispatch.mk 0 (fun _ : Nat => RawKey.atom 0)
        (PredicateRegistry.empty
          (key_predicate PyObj.pyNone : Predicate (RawKey Nat) Nat)))
      (RawKey.tup [RawKey.tup [RawKey.atom 5]]) 1).bind
      (fun d1 => Dispatch.register_value d1 (RawKey.tup [RawKey.atom 5]) 2)
      = Except.ok (Dispatch.mk 0 (fun _ : Nat => RawKey.atom 0)
          (PredicateRegistry.mk
            (key_predicate PyObj.pyNone : Predicate (RawKey Nat) Nat)
            [(RawKey.tup [RawKey.atom 5], [1]), (RawKey.atom 5, [2])]
            [RawKey.tup [RawKey.atom 5], RawKey.atom 5])) := rfl
  rw [hok] at h
  exact Except.noConfusion h

/-- C10 (amended): `register_value` converts a list key to a tuple and then
replaces a length-1 tuple key by its single element — a single collapse, not
applied recursively — so for every value `x` that the normalization leaves
fixed (every `x` that is not itself a list or a length-1 tuple), registering
under the key `(x,)` and later under the key `x` (or vice versa) addresses
the same predicate key and the second registration raises the
duplicate-registration error.  For `x` itself a length-1 tuple the two
spellings collapse to different keys and no error is raised. -/
theorem register_value_key_normalization [DecidableEq K] [DecidableEq V]
    {A : Type} (w : V) (gk : A → RawKey K) (p : Predicate (RawKey K) V)
    (x : RawKey K) (ks : List (RawKey K)) (v1 v2 : V)
    (hx : register_value_normalize x = x) :
    register_value_normalize (RawKey.list ks)
      = register_value_normalize (RawKey.tup ks) ∧
    (∀ y : RawKey K, register_value_normalize (RawKey.tup [y]) = y) ∧
    (∃ d1, (Dispatch.mk w gk (PredicateRegistry.empty p)).register_value
          (RawKey.tup [x]) v1 = Except.ok d1 ∧
        d1.register_value x v2
          = Except.error RegistrationError.duplicateKey) ∧
    (∃ d1, (Dispatch.mk w gk (PredicateRegistry.empty p)).register_value
          x v1 = Except.ok d1 ∧
        d1.register_value (RawKey.tup [x]) v2
          = Except.error RegistrationError.duplicateKey) := by
  refine ⟨?_, fun y => rfl, ?_, ?_⟩
  · cases ks with
    | nil => rfl
    | cons a ks2 => cases ks2 <;> rfl
  · refine ⟨Dispatch.mk w gk (PredicateRegistry.mk p [(x, [v1])] [x]),
      ?_, ?_⟩
    · simp [Dispatch.register_value, register_value_normalize,
        PredicateRegistry.register, PredicateRegistry.empty, KeyIndex.add,
        KeyIndex.empty, Except.map]
    · simp [Dispatch.register_value, hx, PredicateRegistry.register,
        Except.map]
  · refine ⟨Dispatch.mk w gk (PredicateRegistry.mk p [(x, [v1])] [x]),
      ?_, ?_⟩
    · simp [Dispatch.register_value, hx, PredicateRegistry.register,
        PredicateRegistry.empty, KeyIndex.add, KeyIndex.empty, Except.map]
    · simp [Dispatch.register_value, register_value_normalize,
        PredicateRegistry.register, Except.map]

/-- Witness for C10's amended theorem at `x = 7` (an atom, left fixed by the
normalization), list key `[1, 2]`, values `1` and `2`. -/
theorem register_value_key_normalization_witness :
    register_value_normalize (RawKey.atom (7 : Nat)) = RawKey.atom 7 ∧
    (register_value_normalize
        (RawKey.list [RawKey.atom (1 : Nat), RawKey.atom 2])
      = register_value_normalize
          (RawKey.tup [RawKey.atom 1, RawKey.atom 2]) ∧
    (∀ y : RawKey Nat, register_value_normalize (RawKey.tup [y]) = y) ∧
    (∃ d1, Dispatch.register_value
          (Dispatch.mk (0 : Nat) (fun _ : Nat => RawKey.atom (0 : Nat))
            (PredicateRegistry.empty
              (key_predicate PyObj.pyNone : Predicate (RawKey Nat) Nat)))
          (RawKey.tup [RawKey.atom 7]) 1 = Except.ok d1 ∧
        Dispatch.register_value d1 (RawKey.atom 7) 2
          = Except.error RegistrationError.duplicateKey) ∧
    (∃ d1, Dispatch.register_value
          (Dispatch.mk (0 : Nat) (fun _ : Nat => RawKey.atom (0 : Nat))
            (PredicateRegistry.empty
              (key_predicate PyObj.pyNone : Predicate (RawKey Nat) Nat)))
          (RawKey.atom 7) 1 = Except.ok d1 ∧
        Dispatch.register_value d1 (RawKey.tup [RawKey.atom 7]) 2
          = Except.error RegistrationError.duplicateKey)) :=
  ⟨rfl,
   register_value_key_normalization 0 (fun _ => RawKey.atom 0)
     (key_predicate PyObj.pyNone) (RawKey.atom 7)
     [RawKey.atom 1, RawKey.atom 2] 1 2 rfl⟩

/-- C6 counterexample: in a two-axis registry with nothing registered and no
axis declaring a fallback, resolution returns `None` (the first axis's
undeclared fallback value), not the `NOT_FOUND` sentinel required by the
claim. -/
theorem combined_fallback_counterexample :
    (MultiPredicateRegistry.empty
        [key_predicate PyObj.pyNone, key_predicate PyObj.pyNone]
      : MultiPredicateRegistry Nat Nat).component [0, 1] = PyObj.pyNone ∧
    (PyObj.pyNone : PyObj Nat) ≠ PyObj.notFound :=
  ⟨rfl, by decide⟩

/-- C6 (amended): when no combination matches, the axes are probed in order
and the first axis for which no permutation of its key component is present
in its child index determines the result — that axis's declared fallback
value if it declares one, and `None` otherwise; only when every axis has some
permutation present does the combined fallback report `NOT_FOUND` (fallback
values, when declared, are actual values or `None`, never the sentinel). -/
theorem combined_fallback_first_inapplicable_axis [DecidableEq K]
    [DecidableEq V] (indexes : List (KeyIndex K V)) (keys : List K)
    (predicates : List (Predicate K V))
    (hfb : ∀ p ∈ predicates, p._fallback ≠ PyObj.notFound) :
    multi_fallback indexes keys predicates =
      match (zip3 indexes keys predicates).find?
          (fun t => (t.2.2.permutations t.2.1).all
            (fun perm => (t.1.get perm).isNone)) with
      | Option.some t => t.2.2._fallback
      | Option.none => PyObj.notFound := by
  induction indexes generalizing keys predicates with
  | nil => cases keys <;> cases predicates <;> rfl
  | cons idx idxs ih =>
    cases keys with
    | nil => cases predicates <;> rfl
    | cons k ks =>
      cases predicates with
      | nil => rfl
      | cons p ps =>
        have hp := hfb p (List.mem_cons_self p ps)
        have hrec := ih ks ps (fun q hq => hfb q (List.mem_cons_of_mem p hq))
        by_cases hall : (p.permutations k).all
            (fun perm => (KeyIndex.get idx perm).isNone) = true
        · have hfall : p.fallback idx k = p._fallback := by
            unfold Predicate.fallback
            rw [predicate_fallback_go_eq, if_pos hall]
          have hall2 : (fun t : KeyIndex K V × K × Predicate K V =>
              (t.2.2.permutations t.2.1).all
                (fun perm => (t.1.get perm).isNone)) (idx, k, p) = true := hall
          simp only [multi_fallback, zip3, hfall]
          rw [@List.find?_cons_of_pos (KeyIndex K V × K × Predicate K V)
            (fun t => (t.2.2.permutations t.2.1).all
              (fun perm => (t.1.get perm).isNone))
            (idx, k, p) (zip3 idxs ks ps) hall2]
          simp [hp]
        · have hfall : p.fallback idx k = PyObj.notFound := by
            unfold Predicate.fallback
            rw [predicate_fallback_go_eq, if_neg hall]
          have hall2 : ¬ (fun t : KeyIndex K V × K × Predicate K V =>
              (t.2.2.permutations t.2.1).all
                (fun perm => (t.1.get perm).isNone)) (idx, k, p) = true := hall
          simp only [multi_fallback, zip3, hfall]
          rw [@List.find?_cons_of_neg (KeyIndex K V × K × Predicate K V)
            (fun t => (t.2.2.permutations t.2.1).all
              (fun perm => (t.1.get perm).isNone))
            (idx, k, p) (zip3 idxs ks ps) hall2]
          simp [hrec]

/-- Witness for C6's amended theorem: two exact-match axes, the second
declaring fallback `9`, with only the second axis's key present in its
index. -/
theorem combined_fallback_first_inapplicable_axis_witness :
    (∀ p ∈ ([key_predicate PyObj.pyNone, key_predicate (PyObj.obj 9)]
        : List (Predicate Nat Nat)), p._fallback ≠ PyObj.notFound) ∧
    multi_fallback [KeyIndex.empty, [(1, [4])]] [0, 1]
        ([key_predicate PyObj.pyNone, key_predicate (PyObj.obj 9)]
          : List (Predicate Nat Nat)) =
      match (zip3 [KeyIndex.empty, [(1, [4])]] [0, 1]
          ([key_predicate PyObj.pyNone, key_predicate (PyObj.obj 9)]
            : List (Predicate Nat Nat))).find?
          (fun t => (t.2.2.permutations t.2.1).all
            (fun perm => (t.1.get perm).isNone)) with
      | Option.some t => t.2.2._fallback
      | Option.none => PyObj.notFound :=
  ⟨by decide,
   combined_fallback_first_inapplicable_axis [KeyIndex.empty, [(1, [4])]]
     [0, 1] [key_predicate PyObj.pyNone, key_predicate (PyObj.obj 9)]
     (by decide)⟩

/-! Invariant lemmas for `KeyIndex`, `MultiIndex.add` and `buildMultiIndex`,
used to settle the narrowing-by-intersection claim. -/

theorem keyindex_get_add [DecidableEq K] [DecidableEq V]
    (idx : List (K × List V)) (k k' : K) (v : V) :
    KeyIndex.get (KeyIndex.add idx k v) k' =
      if k' = k then
        Option.some (match KeyIndex.get idx k with
          | Option.none => [v]
          | Option.some vs => if v ∈ vs then vs else vs ++ [v])
      else KeyIndex.get idx k' := by
  induction idx with
  | nil =>
    by_cases h : k' = k
    · subst h; simp [KeyIndex.add, KeyIndex.get]
    · simp [KeyIndex.add, KeyIndex.get, h, Ne.symm h]
  | cons hd tl ih =>
    obtain ⟨k0, vs⟩ := hd
    by_cases h0 : k0 = k
    · subst h0
      by_cases h' : k' = k0
      · subst h'
        simp [KeyIndex.add, KeyIndex.get]
      · simp [KeyIndex.add, KeyIndex.get, h', Ne.symm h']
    · by_cases h' : k' = k0
      · subst h'
        have hk : ¬ k' = k := fun he => h0 (he ▸ rfl)
        simp [KeyIndex.add, KeyIndex.get, h0, hk]
      · simp [KeyIndex.add, KeyIndex.get, h0, h', Ne.symm h', ih]

theorem keyindex_get_add_other [DecidableEq K] [DecidableEq V]
    (idx : List (K × List V)) (k k' : K) (v : V) (h : k' ≠ k) :
    KeyIndex.get (KeyIndex.add idx k v) k' = KeyIndex.get idx k' := by
  rw [keyindex_get_add, if_neg h]

theorem keyindex_get_add_self_mem [DecidableEq K] [DecidableEq V]
    (idx : List (K × List V)) (k : K) (v : V) (vs : List V)
    (hg : KeyIndex.get idx k = Option.some vs) (hm : v ∈ vs) :
    KeyIndex.get (KeyIndex.add idx k v) k = Option.some vs := by
  rw [keyindex_get_add, if_pos rfl, hg]
  show Option.some (if v ∈ vs then vs else vs ++ [v]) = Option.some vs
  rw [if_pos hm]

theorem keyindex_get_add_self_new [DecidableEq K] [DecidableEq V]
    (idx : List (K × List V)) (k : K) (v : V) (vs : List V)
    (hg : KeyIndex.get idx k = Option.some vs) (hm : v ∉ vs) :
    KeyIndex.get (KeyIndex.add idx k v) k = Option.some (vs ++ [v]) := by
  rw [keyindex_get_add, if_pos rfl, hg]
  show Option.some (if v ∈ vs then vs else vs ++ [v]) = Option.some (vs ++ [v])
  rw [if_neg hm]

theorem keyindex_hasValue_add [DecidableEq K] [DecidableEq V]
    (idx : List (K × List V)) (k k' : K) (v v' : V) :
    KeyIndex.hasValue (KeyIndex.add idx k v) k' v' ↔
      (k' = k ∧ v' = v) ∨ KeyIndex.hasValue idx k' v' := by
  unfold KeyIndex.hasValue
  by_cases h : k' = k
  · subst h
    cases hg : KeyIndex.get idx k' with
    | none =>
      rw [keyindex_get_add_fresh idx k' v hg]
      constructor
      · rintro ⟨l, hl, hv⟩
        rw [Option.some_inj] at hl
        subst hl
        exact Or.inl ⟨rfl, List.mem_singleton.mp hv⟩
      · rintro (⟨-, hv⟩ | ⟨l, hl, -⟩)
        · exact ⟨[v], rfl, by simp [hv]⟩
        · exact absurd hl (by simp)
    | some vs =>
      by_cases hm : v ∈ vs
      · rw [keyindex_get_add_self_mem idx k' v vs hg hm]
        constructor
        · rintro ⟨l, hl, hv⟩
          rw [Option.some_inj] at hl
          subst hl
          exact Or.inr ⟨vs, rfl, hv⟩
        · rintro (⟨-, hv⟩ | ⟨l, hl, hv⟩)
          · exact ⟨vs, rfl, by rw [hv]; exact hm⟩
          · rw [Option.some_inj] at hl
            subst hl
            exact ⟨vs, rfl, hv⟩
      · rw [keyindex_get_add_self_new idx k' v vs hg hm]
        constructor
        · rintro ⟨l, hl, hv⟩
          rw [Option.some_inj] at hl
          subst hl
          rcases List.mem_append.mp hv with hv | hv
          · exact Or.inr ⟨vs, rfl, hv⟩
          · exact Or.inl ⟨rfl, List.mem_singleton.mp hv⟩
        · rintro (⟨-, hv⟩ | ⟨l, hl, hv⟩)
          · exact ⟨vs ++ [v], rfl, by simp [hv]⟩
          · rw [Option.some_inj] at hl
            subst hl
            exact ⟨vs ++ [v], rfl, by simp [hv]⟩
  · rw [keyindex_get_add_other idx k k' v h]
    constructor
    · rintro ⟨l, hl, hv⟩
      exact Or.inr ⟨l, hl, hv⟩
    · rintro (⟨he, -⟩ | ⟨l, hl, hv⟩)
      · exact absurd he h
      · exact ⟨l, hl, hv⟩

theorem keyindex_WF_empty [DecidableEq K] :
    KeyIndex.WF (KeyIndex.empty : KeyIndex K V) := by
  intro k l hl
  exact Option.noConfusion hl

theorem keyindex_WF_add [DecidableEq K] [DecidableEq V]
    (idx : List (K × List V)) (k : K) (v : V)
    (hwf : KeyIndex.WF (idx : KeyIndex K V)) :
    KeyIndex.WF (KeyIndex.add idx k v) := by
  intro k' l hl
  by_cases h : k' = k
  · subst h
    cases hg : KeyIndex.get idx k' with
    | none =>
      rw [keyindex_get_add_fresh idx k' v hg, Option.some_inj] at hl
      subst hl
      exact ⟨by simp, List.nodup_singleton v⟩
    | some vs =>
      obtain ⟨hne, hnd⟩ := hwf k' vs hg
      by_cases hm : v ∈ vs
      · rw [keyindex_get_add_self_mem idx k' v vs hg hm,
          Option.some_inj] at hl
        subst hl
        exact ⟨hne, hnd⟩
      · rw [keyindex_get_add_self_new idx k' v vs hg hm,
          Option.some_inj] at hl
        subst hl
        refine ⟨by simp, ?_⟩
        rw [List.nodup_append]
        refine ⟨hnd, List.nodup_singleton v, fun a ha ha2 => ?_⟩
        rw [List.mem_singleton] at ha2
        exact hm (ha2 ▸ ha)
  · rw [keyindex_get_add_other idx k k' v h] at hl
    exact hwf k' l hl

theorem multiindex_add_length [DecidableEq K] [DecidableEq V]
    (idxs : List (KeyIndex K V)) (ks : List K) (v : V) :
    (MultiIndex.add idxs ks v).length = idxs.length := by
  induction idxs generalizing ks with
  | nil => cases ks <;> rfl
  | cons idx idxs ih =>
    cases ks with
    | nil => rfl
    | cons k ks => simp [MultiIndex.add, ih]

theorem multiindex_add_getElem [DecidableEq K] [DecidableEq V]
    (idxs : List (KeyIndex K V)) (ks : List K) (v : V) (i : Nat)
    (idx : KeyIndex K V) (k : K)
    (hi : idxs[i]? = Option.some idx) (hk : ks[i]? = Option.some k) :
    (MultiIndex.add idxs ks v)[i]? = Option.some (idx.add k v) := by
  induction idxs generalizing ks i with
  | nil => simp at hi
  | cons idx0 idxs ih =>
    cases ks with
    | nil => simp at hk
    | cons k0 ks =>
      cases i with
      | zero =>
        simp only [List.getElem?_cons_zero, Option.some_inj] at hi hk
        subst hi; subst hk
        simp [MultiIndex.add]
      | succ j =>
        simp only [List.getElem?_cons_succ] at hi hk
        simpa [MultiIndex.add] using ih ks j hi hk

theorem buildMultiIndex_axis_characterization [DecidableEq K] [DecidableEq V]
    (regs : List (List K × V)) (idxs0 : List (KeyIndex K V)) (i : Nat)
    (idx0 : KeyIndex K V) (h0 : idxs0[i]? = Option.some idx0)
    (hlen : ∀ pr ∈ regs, pr.1.length = idxs0.length) :
    ∃ idx1,
      (regs.foldl (fun idxs r => MultiIndex.add idxs r.1 r.2) idxs0)[i]?
        = Option.some idx1 ∧
      (∀ k v, idx1.hasValue k v ↔
        (idx0.hasValue k v ∨ ∃ pr ∈ regs, pr.2 = v ∧ pr.1[i]? = Option.some k)) ∧
      (idx0.WF → idx1.WF) := by
  induction regs generalizing idxs0 idx0 with
  | nil =>
    exact ⟨idx0, h0, fun k v => by simp, fun h => h⟩
  | cons pr regs ih =>
    have hilt : i < idxs0.length := by
      by_contra hge
      rw [List.getElem?_eq_none (Nat.le_of_not_lt hge)] at h0
      exact Option.noConfusion h0
    have hklen : pr.1.length = idxs0.length := hlen pr (List.mem_cons_self pr regs)
    have hklt : i < pr.1.length := hklen ▸ hilt
    obtain ⟨k0, hk0⟩ : ∃ k0, pr.1[i]? = Option.some k0 := by
      rw [List.getElem?_eq_getElem hklt]
      exact ⟨_, rfl⟩
    have hstep : (MultiIndex.add idxs0 pr.1 pr.2)[i]?
        = Option.some (idx0.add k0 pr.2) :=
      multiindex_add_getElem idxs0 pr.1 pr.2 i idx0 k0 h0 hk0
    have hlen2 : ∀ pr2 ∈ regs, pr2.1.length
        = (MultiIndex.add idxs0 pr.1 pr.2).length := by
      intro pr2 h2
      rw [multiindex_add_length]
      exact hlen pr2 (List.mem_cons_of_mem pr h2)
    obtain ⟨idx1, hidx1, hchar, hwf⟩ :=
      ih (MultiIndex.add idxs0 pr.1 pr.2) (idx0.add k0 pr.2) hstep hlen2
    refine ⟨idx1, by simpa [List.foldl_cons] using hidx1, ?_, ?_⟩
    · intro k v
      rw [hchar k v, keyindex_hasValue_add]
      constructor
      · rintro ((⟨hke, hve⟩ | hold) | ⟨pr2, h2, hv2, hk2⟩)
        · subst hke; subst hve
          exact Or.inr ⟨pr, List.mem_cons_self pr regs, rfl, hk0⟩
        · exact Or.inl hold
        · exact Or.inr ⟨pr2, List.mem_cons_of_mem pr h2, hv2, hk2⟩
      · rintro (hold | ⟨pr2, h2, hv2, hk2⟩)
        · exact Or.inl (Or.inr hold)
        · rcases List.mem_cons.mp h2 with h2 | h2
          · subst h2
            rw [hk0, Option.some_inj] at hk2
            exact Or.inl (Or.inl ⟨hk2.symm, hv2.symm⟩)
          · exact Or.inr ⟨pr2, h2, hv2, hk2⟩
    · intro h
      exact hwf (keyindex_WF_add idx0 k0 pr.2 h)

theorem axis_stored_set_cons_zero [DecidableEq K] (idx : KeyIndex K V)
    (idxs : List (KeyIndex K V)) (k : K) (ks : List K) :
    axis_stored_set (idx :: idxs) (k :: ks) 0 = idx.get k := by
  simp [axis_stored_set]

theorem axis_stored_set_cons_succ [DecidableEq K] (idx : KeyIndex K V)
    (idxs : List (KeyIndex K V)) (k : K) (ks : List K) (i : Nat) :
    axis_stored_set (idx :: idxs) (k :: ks) (i + 1)
      = axis_stored_set idxs ks i := by
  simp [axis_stored_set]

theorem buildMultiIndex_length [DecidableEq K] [DecidableEq V] (n : Nat)
    (regs : List (List K × V)) :
    (buildMultiIndex n regs : List (KeyIndex K V)).length = n := by
  unfold buildMultiIndex
  have hfold : ∀ (rs : List (List K × V)) (idxs : List (KeyIndex K V)),
      (rs.foldl (fun idxs r => MultiIndex.add idxs r.1 r.2) idxs).length
        = idxs.length := by
    intro rs
    induction rs with
    | nil => intro idxs; rfl
    | cons r rs ih =>
      intro idxs
      rw [List.foldl_cons, ih, multiindex_add_length]
  rw [hfold, List.length_replicate]

theorem collect_matches_spec [DecidableEq K] [DecidableEq V]
    (idxs : List (KeyIndex K V)) (keys : List K)
    (hlen : idxs.length = keys.length) :
    (collect_matches idxs keys = Option.none ↔
      ∃ i < idxs.length, ∀ l,
        axis_stored_set idxs keys i = Option.some l → l = []) ∧
    (∀ ms, collect_matches idxs keys = Option.some ms →
      ms.length = idxs.length ∧
      ∀ i < idxs.length, ∃ l,
        axis_stored_set idxs keys i = Option.some l ∧ l ≠ []
          ∧ ms[i]? = Option.some l) := by
  induction idxs generalizing keys with
  | nil =>
    cases keys with
    | nil =>
      constructor
      · constructor
        · intro h
          exact absurd h (by simp [collect_matches])
        · rintro ⟨i, hi, -⟩
          simp at hi
      · intro ms hms
        rw [show collect_matches ([] : List (KeyIndex K V)) ([] : List K)
            = Option.some [] from rfl, Option.some_inj] at hms
        subst hms
        exact ⟨rfl, fun i hi => absurd hi (by simp)⟩
    | cons k ks => simp at hlen
  | cons idx idxs ih =>
    cases keys with
    | nil => simp at hlen
    | cons k ks =>
      have hlen2 : idxs.length = ks.length := by simpa using hlen
      obtain ⟨ihn, ihs⟩ := ih ks hlen2
      cases hg : idx.get k with
      | none =>
        have hc : collect_matches (idx :: idxs) (k :: ks) = Option.none := by
          simp [collect_matches, hg]
        constructor
        · constructor
          · intro _
            refine ⟨0, by simp, ?_⟩
            rw [axis_stored_set_cons_zero, hg]
            intro l hl
            exact Option.noConfusion hl
          · intro _
            exact hc
        · intro ms hms
          rw [hc] at hms
          exact Option.noConfusion hms
      | some m =>
        by_cases hme : m = []
        · subst hme
          have hc : collect_matches (idx :: idxs) (k :: ks) = Option.none := by
            simp [collect_matches, hg]
          constructor
          · constructor
            · intro _
              refine ⟨0, by simp, ?_⟩
              rw [axis_stored_set_cons_zero, hg]
              intro l hl
              exact (Option.some_inj.mp hl).symm
            · intro _
              exact hc
          · intro ms hms
            rw [hc] at hms
            exact Option.noConfusion hms
        · cases hrest : collect_matches idxs ks with
          | none =>
            have hc : collect_matches (idx :: idxs) (k :: ks)
                = Option.none := by
              simp [collect_matches, hg, hme, hrest]
            constructor
            · constructor
              · intro _
                obtain ⟨i, hi, hbad⟩ := ihn.mp hrest
                refine ⟨i + 1, by simpa using hi, ?_⟩
                rw [axis_stored_set_cons_succ]
                exact hbad
              · intro _
                exact hc
            · intro ms hms
              rw [hc] at hms
              exact Option.noConfusion hms
          | some rest =>
            have hc : collect_matches (idx :: idxs) (k :: ks)
                = Option.some (m :: rest) := by
              simp [collect_matches, hg, hme, hrest]
            obtain ⟨hrl, hrs⟩ := ihs rest hrest
            constructor
            · constructor
              · intro hnone
                rw [hc] at hnone
                exact Option.noConfusion hnone
              · rintro ⟨i, hi, hbad⟩
                exfalso
                cases i with
                | zero =>
                  rw [axis_stored_set_cons_zero, hg] at hbad
                  exact hme (hbad m rfl)
                | succ j =>
                  rw [axis_stored_set_cons_succ] at hbad
                  have hj : j < idxs.length := by simpa using hi
                  obtain ⟨l, hl, hlne, -⟩ := hrs j hj
                  exact hlne (hbad l hl)
            · intro ms hms
              rw [hc, Option.some_inj] at hms
              subst hms
              refine ⟨by simp [hrl], ?_⟩
              intro i hi
              cases i with
              | zero =>
                exact ⟨m, by rw [axis_stored_set_cons_zero, hg], hme, by simp⟩
              | succ j =>
                have hj : j < idxs.length := by simpa using hi
                obtain ⟨l, hl, hlne, hmsj⟩ := hrs j hj
                exact ⟨l, by rw [axis_stored_set_cons_succ]; exact hl, hlne,
                  by simpa using hmsj⟩

theorem pyinter_mem [DecidableEq V] (a b : List V) (v : V) :
    v ∈ pyinter a b ↔ v ∈ a ∧ v ∈ b := by
  simp [pyinter]

theorem intersect_go_spec [DecidableEq V] (ms : List (List V)) (m : List V) :
    (∀ res, intersect_go m ms = Option.some res →
      (res ≠ [] ∧ res.Sublist m ∧
        ∀ v, (v ∈ res ↔ v ∈ m ∧ ∀ x ∈ ms, v ∈ x))) ∧
    (intersect_go m ms = Option.none ↔
      ∀ v, ¬ (v ∈ m ∧ ∀ x ∈ ms, v ∈ x)) := by
  induction ms generalizing m with
  | nil =>
    by_cases hm : m = []
    · subst hm
      constructor
      · intro res hres
        rw [show intersect_go ([] : List V) [] = Option.none from rfl] at hres
        exact Option.noConfusion hres
      · constructor
        · rintro - v ⟨hv, -⟩
          exact absurd hv (by simp)
        · intro _
          rfl
    · have hc : intersect_go m [] = Option.some m := by
        rw [show intersect_go m ([] : List (List V))
          = if m = [] then Option.none else Option.some m from rfl, if_neg hm]
      constructor
      · intro res hres
        rw [hc, Option.some_inj] at hres
        subst hres
        exact ⟨hm, List.Sublist.refl m, fun v => by simp⟩
      · rw [hc]
        constructor
        · intro h
          exact Option.noConfusion h
        · intro hall
          exfalso
          obtain ⟨v, hv⟩ := List.exists_mem_of_ne_nil m hm
          exact hall v ⟨hv, by simp⟩
  | cons x rest ih =>
    by_cases hm : m = []
    · subst hm
      have hc : intersect_go ([] : List V) (x :: rest) = Option.none := by
        simp [intersect_go]
      constructor
      · intro res hres
        rw [hc] at hres
        exact Option.noConfusion hres
      · rw [hc]
        constructor
        · rintro - v ⟨hv, -⟩
          exact absurd hv (by simp)
        · intro _
          rfl
    · have hc : intersect_go m (x :: rest)
          = intersect_go (pyinter m x) rest := by
        simp [intersect_go, hm]
      obtain ⟨ihs, ihn⟩ := ih (pyinter m x)
      rw [hc]
      constructor
      · intro res hres
        obtain ⟨hne, hsub, hmem⟩ := ihs res hres
        refine ⟨hne, hsub.trans (List.filter_sublist m), fun v => ?_⟩
        rw [hmem v, pyinter_mem]
        constructor
        · rintro ⟨⟨hvm, hvx⟩, hvrest⟩
          refine ⟨hvm, fun y hy => ?_⟩
          rcases List.mem_cons.mp hy with hy | hy
          · exact hy ▸ hvx
          · exact hvrest y hy
        · rintro ⟨hvm, hall⟩
          exact ⟨⟨hvm, hall x (List.mem_cons_self x rest)⟩,
            fun y hy => hall y (List.mem_cons_of_mem x hy)⟩
      · rw [ihn]
        constructor
        · rintro hall v ⟨hvm, hx⟩
          exact hall v ⟨(pyinter_mem m x v).mpr
            ⟨hvm, hx x (List.mem_cons_self x rest)⟩,
            fun y hy => hx y (List.mem_cons_of_mem x hy)⟩
        · rintro hall v ⟨hvp, hrest⟩
          obtain ⟨hvm, hvx⟩ := (pyinter_mem m x v).mp hvp
          refine hall v ⟨hvm, fun y hy => ?_⟩
          rcases List.mem_cons.mp hy with hy | hy
          · exact hy ▸ hvx
          · exact hrest y hy

/-- C2 (amended): for a multi-axis index built from registrations with
distinct full keys and a fully concrete per-axis key combination,
`MultiIndex.get` returns the default when some axis's child index has no
non-empty stored set for that axis's key component; otherwise it returns the
default exactly when the intersection of all axes' stored sets is empty, and
any returned set consists exactly of the values common to every axis's stored
set.  The returned intersection has at most one element under the additional
precondition that no value is registered under more than one full key
(distinctness of the full keys alone does not bound the intersection). -/
theorem multiindex_narrowing_by_intersection [DecidableEq K] [DecidableEq V]
    (n : Nat) (regs : List (List K × V)) (keys : List K) (hn : 0 < n)
    (hreg : ∀ pr ∈ regs, pr.1.length = n) (hkeys : keys.length = n)
    (hdk : (regs.map Prod.fst).Nodup) :
    ((∃ i < n, ∀ l, axis_stored_set (buildMultiIndex n regs) keys i
        = Option.some l → l = []) →
      MultiIndex.get (buildMultiIndex n regs) keys = Option.none) ∧
    ((∀ i < n, ∃ l, axis_stored_set (buildMultiIndex n regs) keys i
        = Option.some l ∧ l ≠ []) →
      ((MultiIndex.get (buildMultiIndex n regs) keys = Option.none ↔
        ∀ v : V, ¬ ∀ i < n, ∃ l,
          axis_stored_set (buildMultiIndex n regs) keys i = Option.some l
            ∧ v ∈ l) ∧
      (∀ res, MultiIndex.get (buildMultiIndex n regs) keys = Option.some res →
        ∀ v : V, v ∈ res ↔ ∀ i < n, ∃ l,
          axis_stored_set (buildMultiIndex n regs) keys i = Option.some l
            ∧ v ∈ l))) ∧
    ((regs.map Prod.snd).Nodup →
      ∀ res, MultiIndex.get (buildMultiIndex n regs) keys = Option.some res →
        res.length ≤ 1) := by
  have hmlen : (buildMultiIndex n regs : List (KeyIndex K V)).length = n :=
    buildMultiIndex_length n regs
  have hlen2 : (buildMultiIndex n regs : List (KeyIndex K V)).length
      = keys.length := by rw [hmlen, hkeys]
  obtain ⟨hcn, hcs⟩ := collect_matches_spec (buildMultiIndex n regs) keys hlen2
  have hchar : ∀ i, i < n → ∃ idx1,
      (buildMultiIndex n regs)[i]? = Option.some idx1 ∧
      (∀ k v, idx1.hasValue k v ↔
        ∃ pr ∈ regs, pr.2 = v ∧ pr.1[i]? = Option.some k) ∧ idx1.WF := by
    intro i hi
    have h0 : (List.replicate n (KeyIndex.empty : KeyIndex K V))[i]?
        = Option.some KeyIndex.empty := by
      rw [List.getElem?_replicate, if_pos hi]
    obtain ⟨idx1, hio, hch, hwf⟩ :=
      buildMultiIndex_axis_characterization regs
        (List.replicate n KeyIndex.empty) i KeyIndex.empty h0
        (fun pr hp => by rw [List.length_replicate]; exact hreg pr hp)
    refine ⟨idx1, hio, fun k v => ?_, hwf keyindex_WF_empty⟩
    rw [hch k v]
    have hemp : ¬ KeyIndex.hasValue (KeyIndex.empty : KeyIndex K V) k v := by
      rintro ⟨l, hl, -⟩
      exact Option.noConfusion hl
    constructor
    · rintro (h | h)
      · exact absurd h hemp
      · exact h
    · intro h
      exact Or.inr h
  have hki : ∀ i, i < n → ∃ ki, keys[i]? = Option.some ki := by
    intro i hi
    rw [List.getElem?_eq_getElem (by rw [hkeys]; exact hi)]
    exact ⟨_, rfl⟩
  have hass : ∀ i, i < n →
      ∀ idx1, (buildMultiIndex n regs)[i]? = Option.some idx1 →
      ∀ ki, keys[i]? = Option.some ki →
      axis_stored_set (buildMultiIndex n regs) keys i = idx1.get ki := by
    intro i _ idx1 hio ki hki2
    simp [axis_stored_set, hio, hki2]
  have hsplit : ∀ res,
      MultiIndex.get (buildMultiIndex n regs) keys = Option.some res →
      ∃ ms m ms2,
        collect_matches (buildMultiIndex n regs) keys = Option.some ms ∧
        ms.insertionSort (fun a b => a.length ≤ b.length) = m :: ms2 ∧
        intersect_go m ms2 = Option.some res := by
    intro res hres
    cases hcoll : collect_matches (buildMultiIndex n regs) keys with
    | none =>
      rw [show MultiIndex.get (buildMultiIndex n regs) keys = Option.none
        from by simp [MultiIndex.get, hcoll]] at hres
      exact Option.noConfusion hres
    | some ms =>
      cases hsort : ms.insertionSort (fun a b => a.length ≤ b.length) with
      | nil =>
        rw [show MultiIndex.get (buildMultiIndex n regs) keys = Option.none
          from by simp [MultiIndex.get, hcoll, hsort]] at hres
        exact Option.noConfusion hres
      | cons m ms2 =>
        refine ⟨ms, m, ms2, rfl, hsort, ?_⟩
        rw [show MultiIndex.get (buildMultiIndex n regs) keys
          = intersect_go m ms2 from by
            simp [MultiIndex.get, hcoll, hsort]] at hres
        exact hres
  have htrans : ∀ ms m ms2,
      collect_matches (buildMultiIndex n regs) keys = Option.some ms →
      ms.insertionSort (fun a b => a.length ≤ b.length) = m :: ms2 →
      ∀ v : V, (v ∈ m ∧ ∀ x ∈ ms2, v ∈ x) ↔
        (∀ i < n, ∃ l, axis_stored_set (buildMultiIndex n regs) keys i
          = Option.some l ∧ v ∈ l) := by
    intro ms m ms2 hcoll hsort v
    obtain ⟨hmsl, hmss⟩ := hcs ms hcoll
    have hsortmem : ∀ x : List V, x ∈ ms ↔ x ∈ m :: ms2 := fun x => by
      rw [← hsort]
      exact (List.mem_insertionSort _).symm
    constructor
    · rintro ⟨hvm, hrest⟩ i hi
      obtain ⟨l, hl, hlne, hmsi⟩ := hmss i (by rw [hmlen]; exact hi)
      have hlmem : l ∈ m :: ms2 :=
        (hsortmem l).mp (List.mem_iff_getElem?.mpr ⟨i, hmsi⟩)
      refine ⟨l, hl, ?_⟩
      rcases List.mem_cons.mp hlmem with h2 | h2
      · rw [h2]
        exact hvm
      · exact hrest l h2
    · intro hcom
      constructor
      · have hm_mem : m ∈ ms := (hsortmem m).mpr (List.mem_cons_self m ms2)
        obtain ⟨i, hmi2⟩ := List.mem_iff_getElem?.mp hm_mem
        have hi2 : i < ms.length := by
          by_contra hge
          rw [List.getElem?_eq_none (Nat.le_of_not_lt hge)] at hmi2
          exact Option.noConfusion hmi2
        have hiltn : i < n := by rw [hmsl, hmlen] at hi2; exact hi2
        obtain ⟨l, hl, -, hmsi⟩ := hmss i (by rw [hmlen]; exact hiltn)
        have hlm : l = m := by
          rw [hmsi] at hmi2
          exact Option.some_inj.mp hmi2
        obtain ⟨l2, hl2, hv2⟩ := hcom i hiltn
        rw [hl] at hl2
        rw [← hlm, Option.some_inj.mp hl2]
        exact hv2
      · intro x hx
        have hx_mem : x ∈ ms := (hsortmem x).mpr (List.mem_cons_of_mem m hx)
        obtain ⟨i, hxi⟩ := List.mem_iff_getElem?.mp hx_mem
        have hi2 : i < ms.length := by
          by_contra hge
          rw [List.getElem?_eq_none (Nat.le_of_not_lt hge)] at hxi
          exact Option.noConfusion hxi
        have hiltn : i < n := by rw [hmsl, hmlen] at hi2; exact hi2
        obtain ⟨l, hl, -, hmsi⟩ := hmss i (by rw [hmlen]; exact hiltn)
        have hlx : l = x := by
          rw [hmsi] at hxi
          exact Option.some_inj.mp hxi
        obtain ⟨l2, hl2, hv2⟩ := hcom i hiltn
        rw [hl] at hl2
        rw [← hlx, Option.some_inj.mp hl2]
        exact hv2
  have hmemchar : ∀ res,
      MultiIndex.get (buildMultiIndex n regs) keys = Option.some res →
      ∀ v : V, v ∈ res ↔ ∀ i < n, ∃ l,
        axis_stored_set (buildMultiIndex n regs) keys i = Option.some l
          ∧ v ∈ l := by
    intro res hres v
    obtain ⟨ms, m, ms2, hcoll, hsort, hint⟩ := hsplit res hres
    obtain ⟨-, -, hmem⟩ := (intersect_go_spec ms2 m).1 res hint
    rw [hmem v]
    exact htrans ms m ms2 hcoll hsort v
  refine ⟨?_, ?_, ?_⟩
  · rintro ⟨i, hi, hbad⟩
    have hcnone : collect_matches (buildMultiIndex n regs) keys
        = Option.none := hcn.mpr ⟨i, by rw [hmlen]; exact hi, hbad⟩
    simp [MultiIndex.get, hcnone]
  · intro hgood
    refine ⟨?_, fun res hres v => hmemchar res hres v⟩
    constructor
    · intro hnone v hcom
      cases hcoll : collect_matches (buildMultiIndex n regs) keys with
      | none =>
        obtain ⟨i, hi, hbad⟩ := hcn.mp hcoll
        obtain ⟨l, hl, hlne⟩ := hgood i (by rw [← hmlen]; exact hi)
        exact hlne (hbad l hl)
      | some ms =>
        cases hsort : ms.insertionSort (fun a b => a.length ≤ b.length) with
        | nil =>
          have hlen0 := List.length_insertionSort
            (fun (a b : List V) => a.length ≤ b.length) ms
          rw [hsort, List.length_nil] at hlen0
          obtain ⟨hmsl, -⟩ := hcs ms hcoll
          rw [← hlen0] at hmsl
          rw [hmlen] at hmsl
          omega
        | cons m ms2 =>
          rw [show MultiIndex.get (buildMultiIndex n regs) keys
            = intersect_go m ms2 from by
              simp [MultiIndex.get, hcoll, hsort]] at hnone
          exact ((intersect_go_spec ms2 m).2.mp hnone) v
            ((htrans ms m ms2 hcoll hsort v).mpr hcom)
    · intro hall
      cases hres : MultiIndex.get (buildMultiIndex n regs) keys with
      | none => rfl
      | some res =>
        exfalso
        obtain ⟨ms, m, ms2, hcoll, hsort, hint⟩ := hsplit res hres
        obtain ⟨hne, -, hmem⟩ := (intersect_go_spec ms2 m).1 res hint
        obtain ⟨v, hv⟩ := List.exists_mem_of_ne_nil res hne
        exact hall v
          ((htrans ms m ms2 hcoll hsort v).mp ((hmem v).mp hv))
  · intro hvn res hres
    obtain ⟨ms, m, ms2, hcoll, hsort, hint⟩ := hsplit res hres
    obtain ⟨hmsl, hmss⟩ := hcs ms hcoll
    obtain ⟨hne, hsub, hmem⟩ := (intersect_go_spec ms2 m).1 res hint
    have hsortmem : ∀ x : List V, x ∈ ms ↔ x ∈ m :: ms2 := fun x => by
      rw [← hsort]
      exact (List.mem_insertionSort _).symm
    have hm_mem : m ∈ ms := (hsortmem m).mpr (List.mem_cons_self m ms2)
    obtain ⟨i, hmi2⟩ := List.mem_iff_getElem?.mp hm_mem
    have hi2 : i < ms.length := by
      by_contra hge
      rw [List.getElem?_eq_none (Nat.le_of_not_lt hge)] at hmi2
      exact Option.noConfusion hmi2
    have hiltn : i < n := by rw [hmsl, hmlen] at hi2; exact hi2
    obtain ⟨l, hl, -, hmsi⟩ := hmss i (by rw [hmlen]; exact hiltn)
    have hlm : l = m := by
      rw [hmsi] at hmi2
      exact Option.some_inj.mp hmi2
    obtain ⟨idx1, hio, hch, hwf⟩ := hchar i hiltn
    obtain ⟨ki, hki2⟩ := hki i hiltn
    rw [hass i hiltn idx1 hio ki hki2] at hl
    have hmnd : m.Nodup := by
      rw [← hlm]
      exact (hwf ki l hl).2
    have hres_nd : res.Nodup := hsub.nodup hmnd
    have hcomm := hmemchar res hres
    have hassoc : ∀ v ∈ res, ∃ pr ∈ regs, pr.2 = v ∧ pr.1 = keys := by
      intro v hv
      have hcom := (hcomm v).mp hv
      have hper : ∀ j, j < n →
          ∃ pr ∈ regs, pr.2 = v ∧ pr.1[j]? = keys[j]? := by
        intro j hj
        obtain ⟨idxj, hioj, hchj, -⟩ := hchar j hj
        obtain ⟨kj, hkj⟩ := hki j hj
        obtain ⟨lj, hlj, hvlj⟩ := hcom j hj
        rw [hass j hj idxj hioj kj hkj] at hlj
        obtain ⟨pr, hpr, hpv, hpk⟩ := (hchj kj v).mp ⟨lj, hlj, hvlj⟩
        exact ⟨pr, hpr, hpv, by rw [hpk, hkj]⟩
      obtain ⟨pr0, hpr0, hpv0, hpk0⟩ := hper 0 hn
      refine ⟨pr0, hpr0, hpv0, List.ext_getElem? fun j => ?_⟩
      by_cases hj : j < n
      · obtain ⟨prj, hprj, hpvj, hpkj⟩ := hper j hj
        have heq : prj = pr0 :=
          List.inj_on_of_nodup_map hvn hprj hpr0 (by rw [hpvj, hpv0])
        rw [← heq]
        exact hpkj
      · have h1 : keys[j]? = Option.none :=
          List.getElem?_eq_none (by rw [hkeys]; exact Nat.le_of_not_lt hj)
        have h2 : pr0.1[j]? = Option.none :=
          List.getElem?_eq_none
            (by rw [hreg pr0 hpr0]; exact Nat.le_of_not_lt hj)
        rw [h1, h2]
    have halleq : ∀ v1 ∈ res, ∀ v2 ∈ res, v1 = v2 := by
      intro v1 h1 v2 h2
      obtain ⟨pr1, hp1, hv1e, hk1⟩ := hassoc v1 h1
      obtain ⟨pr2, hp2, hv2e, hk2⟩ := hassoc v2 h2
      have heq : pr1 = pr2 :=
        List.inj_on_of_nodup_map hdk hp1 hp2 (by rw [hk1, hk2])
      rw [← hv1e, ← hv2e, heq]
    cases res with
    | nil => simp
    | cons a res2 =>
      cases res2 with
      | nil => simp
      | cons b res3 =>
        exfalso
        have hab : a = b := halleq a (List.mem_cons_self a (b :: res3)) b
          (List.mem_cons_of_mem a (List.mem_cons_self b res3))
        have hnotin : a ∉ b :: res3 := (List.nodup_cons.mp hres_nd).1
        exact hnotin (by rw [hab]; exact List.mem_cons_self b res3)

/-- C2 counterexample: with the three distinct full keys `(0,11) ↦ 1`,
`(1,10) ↦ 1`, `(0,10) ↦ 2` (the value `1` legitimately registered under two
different full keys), the narrowing intersection for the fully concrete
combination `(0,10)` is `{1, 2}` — two elements — so distinctness of full
keys alone does not give the claimed "at most one element". -/
theorem multiindex_intersection_counterexample :
    (([([0, 11], 1), ([1, 10], 1), ([0, 10], 2)]
        : List (List Nat × Nat)).map Prod.fst).Nodup ∧
    (∀ pr ∈ ([([0, 11], 1), ([1, 10], 1), ([0, 10], 2)]
        : List (List Nat × Nat)), pr.1.length = 2) ∧
    MultiIndex.get
        (buildMultiIndex 2 [([0, 11], 1), ([1, 10], 1), ([0, 10], 2)])
        [0, 10] = Option.some [1, 2] ∧
    ¬ ([1, 2] : List Nat).length ≤ 1 :=
  ⟨by decide, by decide, by decide, by decide⟩

/-- Witness for C2's amended theorem: two axes, registrations
`(0,10) ↦ 1` and `(1,11) ↦ 2` (distinct keys and distinct values), lookup
combination `(0,10)`. -/
theorem multiindex_narrowing_by_intersection_witness :
    (0 < 2 ∧ (∀ pr ∈ ([([0, 10], 1), ([1, 11], 2)] : List (List Nat × Nat)),
        pr.1.length = 2) ∧ ([0, 10] : List Nat).length = 2 ∧
      (([([0, 10], 1), ([1, 11], 2)] : List (List Nat × Nat)).map
        Prod.fst).Nodup) ∧
    (((∃ i < 2, ∀ l, axis_stored_set
          (buildMultiIndex 2 [([0, 10], 1), ([1, 11], 2)]) [0, 10] i
          = Option.some l → l = []) →
        MultiIndex.get (buildMultiIndex 2 [([0, 10], 1), ([1, 11], 2)]) [0, 10]
          = Option.none) ∧
    ((∀ i < 2, ∃ l, axis_stored_set
          (buildMultiIndex 2 [([0, 10], 1), ([1, 11], 2)]) [0, 10] i
          = Option.some l ∧ l ≠ []) →
      ((MultiIndex.get (buildMultiIndex 2 [([0, 10], 1), ([1, 11], 2)]) [0, 10]
          = Option.none ↔
        ∀ v : Nat, ¬ ∀ i < 2, ∃ l, axis_stored_set
          (buildMultiIndex 2 [([0, 10], 1), ([1, 11], 2)]) [0, 10] i
            = Option.some l ∧ v ∈ l) ∧
      (∀ res, MultiIndex.get (buildMultiIndex 2 [([0, 10], 1), ([1, 11], 2)])
          [0, 10] = Option.some res →
        ∀ v : Nat, v ∈ res ↔ ∀ i < 2, ∃ l, axis_stored_set
          (buildMultiIndex 2 [([0, 10], 1), ([1, 11], 2)]) [0, 10] i
            = Option.some l ∧ v ∈ l))) ∧
    ((([([0, 10], 1), ([1, 11], 2)] : List (List Nat × Nat)).map
        Prod.snd).Nodup →
      ∀ res, MultiIndex.get (buildMultiIndex 2 [([0, 10], 1), ([1, 11], 2)])
          [0, 10] = Option.some res → res.length ≤ 1)) :=
  ⟨⟨by decide, by decide, rfl, by decide⟩,
   multiindex_narrowing_by_intersection 2 [([0, 10], 1), ([1, 11], 2)]
     [0, 10] (by decide) (by decide) rfl (by decide)⟩

end Reg
